import Mathlib

/-!
Verification development for `mcap_etl/parser/rosbag.py` (SensorSurf/mcap-etl).

The source file defines:
  * `Topic.format_name`   — channel-name normalization,
  * `RosbagParser.__filter_multidimensional` — the value flattener (filter),
  * `RosbagParser.__flatten_schema`          — the schema flattener,
  * `RosbagParser.read_message`              — per-message record construction,
  * `Topic.as_df`                            — table materialization (via pandas).

Every definition below is a shallow embedding of the corresponding Python
code; the few places where external library behaviour (pandas, IEEE floats)
is modelled are marked as such in the doc comments.
-/

namespace McapEtl

/-- `SEPARATOR = "__"` (rosbag.py line 11). -/
def SEPARATOR : String := "__"

/-! ## Runtime values

A `Value` models a Python runtime value as it can reach
`RosbagParser.__filter_multidimensional` (rosbag.py lines 113-125):
built-in scalars, numpy scalar types, `dict`s (insertion-ordered association
lists), `list`s, `tuple`s, `np.ndarray`s (with their `ndim`), plus opaque
non-primitive data (binary blobs, unknown objects). -/
inductive Value where
  | vint (n : Int)
  | vfloat (q : ℚ)
  | vbool (b : Bool)
  | vstr (s : String)
  | vnull
  | npint (bits : Nat) (n : Int)
  | npfloat (bits : Nat) (q : ℚ)
  | vdict (entries : List (String × Value))
  | vlist (elems : List Value)
  | vtuple (elems : List Value)
  | ndarray (ndim : Nat) (elems : List Value)
  | vbytes (bs : List Nat)
  | vobj (tag : String)

/-- `isinstance(data, RosbagParser.PRIM_TYPES)` with
`PRIM_TYPES = (int, float, bool, str, type(None), np.int8, np.int16,
np.int32, np.int64, np.float16, np.float32, np.float64, np.bool)`
(rosbag.py lines 48-61).  `np.bool` is an alias of the builtin `bool` in the
numpy versions this code runs against, so it is covered by `vbool`. -/
def isPrimVal : Value → Bool
  | .vint _ | .vfloat _ | .vbool _ | .vstr _ | .vnull
  | .npint _ _ | .npfloat _ _ => true
  | _ => false

/-- `isinstance(data, dict)` (rosbag.py line 114). -/
def isDictVal : Value → Bool
  | .vdict _ => true
  | _ => false

/-- `isinstance(data, (list, tuple)) or (isinstance(data, np.ndarray) and
data.ndim == 1)` (rosbag.py line 117). -/
def isSeqLike : Value → Bool
  | .vlist _ | .vtuple _ => true
  | .ndarray n _ => n == 1
  | _ => false

mutual

/-- `RosbagParser.__filter_multidimensional` (rosbag.py lines 113-125),
viewed as a function from the value passed in to the value returned:
  * `dict` → each entry's value replaced by its filtered value;
  * `list`/`tuple`/1-dimensional `ndarray` → rebuilt as a `dict` keyed by
    `str(i)` for `i = 0, 1, ...` (`enumerate`), values filtered;
  * anything that is not an instance of `PRIM_TYPES` → `None`;
  * primitive scalars → returned unchanged. -/
def filterMulti : Value → Value
  | .vdict es => .vdict (filterEntries es)
  | .vlist es => .vdict (indexEntries 0 es)
  | .vtuple es => .vdict (indexEntries 0 es)
  | .ndarray ndim es => if ndim = 1 then .vdict (indexEntries 0 es) else .vnull
  | v => if isPrimVal v then v else .vnull

/-- The `dict` branch: `for k, v in data.items(): data[k] =
self.__filter_multidimensional(v)` (rosbag.py lines 114-116). -/
def filterEntries : List (String × Value) → List (String × Value)
  | [] => []
  | (k, v) :: rest => (k, filterMulti v) :: filterEntries rest

/-- The sequence branch: `for i, v in enumerate(data): asdict[str(i)] =
self.__filter_multidimensional(v)` (rosbag.py lines 118-121), with `i`
starting from the given index. -/
def indexEntries : Nat → List Value → List (String × Value)
  | _, [] => []
  | i, v :: rest => (toString i, filterMulti v) :: indexEntries (i + 1) rest

end

/-- Content of the mapping *passed to* `__filter_multidimensional` after the
call returns.  The `dict` branch assigns `data[k] = ...` into the very dict
it was given (rosbag.py line 116), so each slot of the caller's dict ends up
holding the fully filtered value of its original entry. -/
def filterMultiPost (es : List (String × Value)) : List (String × Value) :=
  es.map (fun p => (p.1, filterMulti p.2))

/-! ## Key-joining flattening of nested mappings

`Topic.as_df` (rosbag.py lines 34-36) materializes the accumulated records
with `pd.json_normalize(self.__messages, sep=SEPARATOR)`.  `json_normalize`
is pandas code, outside this repository. -/

/-- Modelled from the spec: the key-flattening step performed by pandas
`json_normalize(..., sep=SEPARATOR)` on one record (spec §4.2: "Mapping
(object with named fields) → recurse into each field, merge child flat keys
under `parent + JOIN + childkey`"; non-mapping values are kept as the cell
value).  The spec fixes no column order beyond first-occurrence acceptance
(§4.3), so children are merged at their parent's position. -/
def normalizeEntries : List (String × Value) → List (String × Value)
  | [] => []
  | (k, Value.vdict es) :: rest =>
    (normalizeEntries es).map (fun p => (k ++ SEPARATOR ++ p.1, p.2))
      ++ normalizeEntries rest
  | (k, v) :: rest => (k, v) :: normalizeEntries rest

/-- The spec's `flatten_value` (§4.2): the composite behaviour of
`__filter_multidimensional` on a decoded message's `__dict__` followed by the
separator-joined key flattening applied by `as_df`. -/
def flatten_value (msg : List (String × Value)) : List (String × Value) :=
  normalizeEntries (filterEntries msg)

/-! ## Channel name normalization

`Topic.format_name` (rosbag.py lines 23-27), modelled on `List Char`. -/

/-- `if name.startswith('/'): name = name[1:]` (rosbag.py lines 25-26). -/
def stripSlash : List Char → List Char
  | [] => []
  | c :: rest => if c = '/' then rest else c :: rest

/-- `name.replace('/', SEPARATOR)` (rosbag.py line 27): every occurrence of
the one-character substring `"/"` is replaced by `"__"`. -/
def replaceSep : List Char → List Char
  | [] => []
  | c :: rest => if c = '/' then '_' :: '_' :: replaceSep rest else c :: replaceSep rest

/-- `Topic.format_name` (rosbag.py lines 23-27). -/
def format_name (s : List Char) : List Char :=
  replaceSep (stripSlash s)

/-- A well-formed channel name in the sense of the spec: it carries a leading
path separator (ROS channel names are absolute) and, per §4.1, does not
contain the join token's character (`JOIN` is "distinct from any character
legal in a field or channel name"). -/
def wellFormedName (s : List Char) : Prop :=
  s.head? = some '/' ∧ '_' ∉ s

instance (s : List Char) : Decidable (wellFormedName s) := by
  unfold wellFormedName; infer_instance

/-! ## The type registry and the schema flattener

`RosbagParser.__flatten_schema` (rosbag.py lines 127-166) walks type
definitions as produced by the `rosbags` library (`get_types_from_msg` /
`FIELDDEFS`).  In that library a field node is a pair
`(name, descriptor)` with descriptor one of
  `(Nodetype.BASE, typename)`, `(Nodetype.NAME, typename)`,
  `(Nodetype.ARRAY, ((elemtag, elemtype), length))`,
  `(Nodetype.SEQUENCE, ((elemtag, elemtype), length))`,
and `Nodetype` is `rosbags.typesys.base.Nodetype`, an `IntEnum` declared as
`BASE = auto(); NAME = auto(); ARRAY = auto(); SEQUENCE = auto()`, i.e. with
numeric values 1, 2, 3, 4.  (The source's own accesses
`field_node[1][1][0]`/`[1]` certify the two-tuple `((tag, type), length)`
layout for arrays and sequences.) -/

inductive Nodetype where
  | BASE
  | NAME
  | ARRAY
  | SEQUENCE
  deriving DecidableEq

/-- `Nodetype.value`: the `IntEnum` numeric value (`auto()` starting at 1). -/
def Nodetype.value : Nodetype → Nat
  | .BASE => 1
  | .NAME => 2
  | .ARRAY => 3
  | .SEQUENCE => 4

/-- A field descriptor `field_node[1]`, in the well-formed shapes the
`rosbags` type system produces (see the block comment above). -/
inductive Desc where
  | base (t : String)
  | name (t : String)
  | array (etag : Nodetype) (etyp : String) (len : Nat)
  | sequence (etag : Nodetype) (etyp : String) (len : Nat)
  deriving DecidableEq

/-- `field_node[1][0]`, the descriptor's `Nodetype` tag. -/
def Desc.tag : Desc → Nodetype
  | .base _ => .BASE
  | .name _ => .NAME
  | .array _ _ _ => .ARRAY
  | .sequence _ _ _ => .SEQUENCE

/-- A field node `(name, descriptor)` of a type definition. -/
abbrev FieldNode := String × Desc

/-- A registered type definition, as stored in `self.__types` /
`FIELDDEFS`: a pair whose first component holds the constant definitions
(never read by the flattener) and whose second component (`ros_schema[1]`,
rosbag.py line 132) is the ordered field list. -/
abbrev TypeDef := List (String × String) × List FieldNode

/-- `class FlatField` (rosbag.py lines 14-18). -/
structure FlatField where
  name : String
  ros_type : String
  deriving DecidableEq

/-- The two dictionaries consulted by the flattener: `self.__types` and the
built-in `FIELDDEFS` catalog (rosbag.py line 128). -/
structure RegState where
  types : List (String × TypeDef)
  fielddefs : List (String × TypeDef)

/-- Python `dict.get`: a read-only lookup. -/
def lookupTD (l : List (String × TypeDef)) (t : String) : Option TypeDef :=
  (l.find? (fun p => p.1 = t)).map (fun p => p.2)

/-- `self.__types.get(ros_type) or FIELDDEFS.get(ros_type)` (rosbag.py line
128).  A present entry is a non-empty tuple, hence truthy, so Python's `or`
coincides with `Option.orElse` here. -/
def regGet (st : RegState) (t : String) : Option TypeDef :=
  (lookupTD st.types t).orElse (fun _ => lookupTD st.fielddefs t)

/-- The field loop of `__flatten_schema` (rosbag.py lines 135-164), with the
recursive call on nested type names abstracted as `recur`.  State is threaded
explicitly; every registry operation in the source is a read (`dict.get`),
so each step passes the state along unchanged.

Branches, in source order (`if is_prim / elif is_cls / elif is_arr`):
  * `Nodetype.BASE` → one `FlatField(name, ros_type)` (lines 143-145);
  * `Nodetype.NAME` → recursive flattening of the named type, each child
    renamed `name + SEPARATOR + child.name` (lines 146-152);
  * `Nodetype.SEQUENCE` → `length = field_node[1][0].value` (line 154).
    `field_node[1][0]` is the node's `Nodetype` tag — equal to
    `Nodetype.SEQUENCE` inside this branch — so `length` is the *enum value
    4*, not the declared sequence length, which is never read.  If the
    element tag is `BASE`, fields `name + SEPARATOR + str(i)` for
    `i in range(length)` are emitted (lines 156-164); otherwise nothing.
  * `Nodetype.ARRAY` matches none of the three tests: the field is skipped
    and contributes nothing. -/
def flattenFields
    (recur : RegState → String → RegState × Except String (List FlatField)) :
    RegState → List FieldNode → RegState × Except String (List FlatField)
  | st, [] => (st, .ok [])
  | st, (fname, Desc.base t) :: rest =>
    match flattenFields recur st rest with
    | (st1, .ok tail) => (st1, .ok (⟨fname, t⟩ :: tail))
    | err => err
  | st, (fname, Desc.name t) :: rest =>
    match recur st t with
    | (st1, .error e) => (st1, .error e)
    | (st1, .ok children) =>
      match flattenFields recur st1 rest with
      | (st2, .ok tail) =>
        (st2, .ok (children.map
          (fun c => ⟨fname ++ SEPARATOR ++ c.name, c.ros_type⟩) ++ tail))
      | err => err
  | st, (fname, Desc.sequence etag etyp _len) :: rest =>
    let emitted : List FlatField :=
      if etag = Nodetype.BASE then
        (List.range (Desc.sequence etag etyp _len).tag.value).map
          (fun i => ⟨fname ++ SEPARATOR ++ toString i, etyp⟩)
      else []
    match flattenFields recur st rest with
    | (st1, .ok tail) => (st1, .ok (emitted ++ tail))
    | err => err
  | st, (_fname, Desc.array _ _ _) :: rest =>
    flattenFields recur st rest

/-- `RosbagParser.__flatten_schema` (rosbag.py lines 127-166).  Python
recursion is bounded by the interpreter's recursion limit, modelled by the
fuel parameter; exhausting it corresponds to `RecursionError`.  The failed
lookup raises `TypeError(f'Unregistered ROS type: {ros_type}')` (line 130) —
the spec's `UnknownTypeError`. -/
def flattenSchema : Nat → RegState → String → RegState × Except String (List FlatField)
  | 0, st, _ => (st, .error "maximum recursion depth exceeded")
  | fuel + 1, st, t =>
    match regGet st t with
    | none => (st, .error ("Unregistered ROS type: " ++ t))
    | some td => flattenFields (flattenSchema fuel) st td.2

/-! ## Python dict operations used by `read_message` -/

/-- Python dict lookup `d[k]` / `d.get(k)` on an insertion-ordered mapping
(keys are unique in an actual dict, so first match is the match). -/
def lookupVal (k : String) : List (String × Value) → Option Value
  | [] => none
  | (k1, v) :: rest => if k1 = k then some v else lookupVal k rest

/-- Python `d[k] = v`: overwrite in place if `k` is present (keeping its
position), otherwise append at the end. -/
def dictSet : List (String × Value) → String → Value → List (String × Value)
  | [], k, v => [(k, v)]
  | (k1, v1) :: rest, k, v =>
    if k1 = k then (k, v) :: rest else (k1, v1) :: dictSet rest k v

/-- Python `del d[k]`: remove the entry if present, raise `KeyError`
(modelled as `none`) if absent. -/
def dictDelOpt : List (String × Value) → String → Option (List (String × Value))
  | [], _ => none
  | (k1, v1) :: rest, k =>
    if k1 = k then some rest
    else (dictDelOpt rest k).map (fun r => (k1, v1) :: r)

/-! ## IEEE binary64 model for `int(ts * self.MS_IN_NS)`

`MS_IN_NS = 1e-6` (rosbag.py line 47) is a Python float, so the timestamp
conversion on line 87 is double-precision arithmetic: the integer `ts` is
converted to the nearest binary64 value, multiplied by the binary64 value of
the literal `1e-6` (one rounding of the exact product), and truncated by
`int(...)`.  Doubles are represented here as exact rationals; rounding is
round-to-nearest with ties-to-even on a 53-bit significand, which is exact
for every value in the normal range (amply covering nanosecond timestamps
and their products with `1e-6`). -/

/-- `2^z` as a rational, for integer `z`. -/
def pow2 (z : Int) : ℚ := (2 : ℚ) ^ z

/-- `⌊log₂ q⌋` for a positive rational, computed from the bit lengths of the
numerator and denominator and corrected by direct comparison. -/
def floorLog2 (q : ℚ) : Int :=
  let e0 : Int := (Nat.log2 q.num.toNat : Int) - (Nat.log2 q.den : Int)
  if q < pow2 e0 then e0 - 1
  else if pow2 (e0 + 1) ≤ q then e0 + 1
  else e0

/-- Round a non-negative rational to the nearest value with a 53-bit binary
significand (round-to-nearest, ties-to-even): the binary64 rounding of any
value in the normal range. -/
def rnd53 (q : ℚ) : ℚ :=
  if q ≤ 0 then 0
  else
    let e := floorLog2 q
    let scaled := q * pow2 (52 - e)
    let m := Rat.floor scaled
    let frac := scaled - (m : ℚ)
    let mr :=
      if (1 : ℚ) / 2 < frac then m + 1
      else if frac < (1 : ℚ) / 2 then m
      else if m % 2 = 0 then m else m + 1
    (mr : ℚ) * pow2 (e - 52)

/-- The binary64 value of the literal `1e-6` (`RosbagParser.MS_IN_NS`,
rosbag.py line 47). -/
def MS_IN_NS : ℚ := rnd53 (1 / 1000000)

/-- `int(ts * self.MS_IN_NS)` (rosbag.py line 87): `ts` rounded to binary64,
multiplied by `MS_IN_NS` with one rounding, truncated to an integer (the
value is non-negative, so truncation is the floor). -/
def tsVal (ts : Nat) : Int := Rat.floor (rnd53 (rnd53 (ts : ℚ) * MS_IN_NS))

/-- The per-message record construction of `RosbagParser.read_message`
(rosbag.py lines 85-88), from the decoded message's `__dict__` and the log
timestamp:
```
msg = self.__filter_multidimensional(msg.__dict__)
msg['ts'] = int(ts * self.MS_IN_NS)
del msg['__msgtype__']
```
`none` models the `KeyError` that `del` would raise were the decoder's
metadata key absent. -/
def readRecord (entries : List (String × Value)) (ts : Nat) :
    Option (List (String × Value)) :=
  dictDelOpt (dictSet (filterEntries entries) "ts" (.vint (tsVal ts))) "__msgtype__"

/-! ## Table materialization

`Topic.as_df` (rosbag.py lines 34-36) runs
`pd.json_normalize(self.__messages, sep=SEPARATOR)` and wraps the result in
a `pd.DataFrame`; both steps are pandas code, outside this repository. -/

/-- A row/column table: an ordered column list and, per accumulated record,
one row holding an optional cell per column. -/
structure Table where
  cols : List String
  rows : List (List (Option Value))

/-- Accumulate keys in first-seen order, skipping those already present. -/
def addKeys (acc : List String) (ks : List String) : List String :=
  ks.foldl (fun a k => if k ∈ a then a else a ++ [k]) acc

/-- The union of all keys over a list of (already flattened) records, in
first-seen order. -/
def unionKeys (rs : List (List (String × Value))) : List String :=
  rs.foldl (fun a r => addKeys a (r.map Prod.fst)) []

/-- Modelled from the spec: `Topic.as_table()` (§4.3) — pandas
`json_normalize` + `DataFrame` materialization of the accumulated records
into a table "whose column set is the union of all keys seen across all
records (order: first-seen order is acceptable; ties broken by first
occurrence), with absent keys in a given record represented as
missing/null for that row-column cell". -/
def asTable (msgs : List (List (String × Value))) : Table :=
  let recs := msgs.map normalizeEntries
  let cols := unionKeys recs
  { cols := cols
    rows := recs.map (fun r => cols.map (fun c => lookupVal c r)) }

/-! ## Concrete inputs used in the theorems below -/

/-- A registry holding one type with a fixed-length-3 sequence of a
primitive element type: field `p`, descriptor
`(Nodetype.SEQUENCE, ((Nodetype.BASE, 'float64'), 3))`. -/
def regP : RegState :=
  ⟨[("test_msgs/msg/P", ([], [("p", Desc.sequence Nodetype.BASE "float64" 3)]))], []⟩

/-- A registry holding one type with a fixed-length-3 array of a primitive
element type: field `q`, descriptor
`(Nodetype.ARRAY, ((Nodetype.BASE, 'float64'), 3))` — the descriptor the
`rosbags` type system produces for a fixed-length ROS array. -/
def regQ : RegState :=
  ⟨[("test_msgs/msg/Q", ([], [("q", Desc.array Nodetype.BASE "float64" 3)]))], []⟩

/-- A registry holding one type with an unbounded sequence of a primitive
element type: field `d`, descriptor
`(Nodetype.SEQUENCE, ((Nodetype.BASE, 'int32'), 0))` (`0` = unbounded). -/
def regD : RegState :=
  ⟨[("test_msgs/msg/D", ([], [("d", Desc.sequence Nodetype.BASE "int32" 0)]))], []⟩

/-- A registry holding one type with an unbounded sequence whose element
type is a named type. -/
def regE : RegState :=
  ⟨[("test_msgs/msg/E",
      ([], [("e", Desc.sequence Nodetype.NAME "geometry_msgs/msg/Point" 0)]))], []⟩

/-- The spec's nested example `T{ a: U{ x: int, y: int } }`. -/
def regTU : RegState :=
  ⟨[("test_msgs/msg/T", ([], [("a", Desc.name "test_msgs/msg/U")])),
    ("test_msgs/msg/U", ([], [("x", Desc.base "int32"), ("y", Desc.base "int32")]))], []⟩

/-- Two accumulated records with divergent key sets: the second lacks the
`b__2` leaf. -/
def exMsgs : List (List (String × Value)) :=
  [[("b", .vdict [("0", .vint 10), ("1", .vint 20), ("2", .vint 30)])],
   [("b", .vdict [("0", .vint 11), ("1", .vint 21)])]]

/-! ## Helper lemmas -/

theorem filterEntries_eq_map (es : List (String × Value)) :
    filterEntries es = es.map (fun p => (p.1, filterMulti p.2)) := by
  induction es with
  | nil => rfl
  | cons p rest ih => cases p; simp [filterEntries, ih]

theorem indexEntries_eq_enumFrom (es : List Value) : ∀ i : Nat,
    indexEntries i es = (List.enumFrom i es).map (fun p => (toString p.1, filterMulti p.2)) := by
  induction es with
  | nil => intro i; rfl
  | cons v rest ih => intro i; simp [indexEntries, List.enumFrom, ih]

mutual

theorem filterMulti_idem : ∀ v : Value, filterMulti (filterMulti v) = filterMulti v
  | .vint _ => rfl
  | .vfloat _ => rfl
  | .vbool _ => rfl
  | .vstr _ => rfl
  | .vnull => rfl
  | .npint _ _ => rfl
  | .npfloat _ _ => rfl
  | .vdict es => by
    simp only [filterMulti]
    exact congrArg Value.vdict (filterEntries_idem es)
  | .vlist es => by
    simp only [filterMulti]
    exact congrArg Value.vdict (filterEntries_indexEntries es 0)
  | .vtuple es => by
    simp only [filterMulti]
    exact congrArg Value.vdict (filterEntries_indexEntries es 0)
  | .ndarray n es => by
    by_cases h : n = 1
    · subst h
      simp only [filterMulti, if_pos rfl]
      exact congrArg Value.vdict (filterEntries_indexEntries es 0)
    · simp [filterMulti, h, isPrimVal]
  | .vbytes _ => rfl
  | .vobj _ => rfl

theorem filterEntries_idem : ∀ es : List (String × Value),
    filterEntries (filterEntries es) = filterEntries es
  | [] => rfl
  | (k, v) :: rest => by
    simp only [filterEntries]
    rw [filterMulti_idem v, filterEntries_idem rest]

theorem filterEntries_indexEntries : ∀ (es : List Value) (i : Nat),
    filterEntries (indexEntries i es) = indexEntries i es
  | [], _ => rfl
  | v :: rest, i => by
    simp only [indexEntries, filterEntries]
    rw [filterMulti_idem v, filterEntries_indexEntries rest (i + 1)]

end

theorem replaceSep_ne_nil (c : Char) (s : List Char) : replaceSep (c :: s) ≠ [] := by
  unfold replaceSep
  split <;> simp

theorem replaceSep_inj : ∀ s1 s2 : List Char, '_' ∉ s1 → '_' ∉ s2 →
    replaceSep s1 = replaceSep s2 → s1 = s2 := by
  intro s1
  induction s1 with
  | nil =>
    intro s2 _ _ h
    cases s2 with
    | nil => rfl
    | cons c r => exact absurd h.symm (replaceSep_ne_nil c r)
  | cons c1 r1 ih =>
    intro s2 h1 h2 h
    cases s2 with
    | nil => exact absurd h (replaceSep_ne_nil c1 r1)
    | cons c2 r2 =>
      have hc1 : c1 ≠ '_' := fun hx => h1 (hx ▸ List.mem_cons_self c1 r1)
      have hc2 : c2 ≠ '_' := fun hx => h2 (hx ▸ List.mem_cons_self c2 r2)
      have hr1 : '_' ∉ r1 := fun hx => h1 (List.mem_cons_of_mem c1 hx)
      have hr2 : '_' ∉ r2 := fun hx => h2 (List.mem_cons_of_mem c2 hx)
      by_cases e1 : c1 = '/' <;> by_cases e2 : c2 = '/'
      · subst e1; subst e2
        have h0 : replaceSep r1 = replaceSep r2 := by simpa [replaceSep] using h
        exact congrArg _ (ih r2 hr1 hr2 h0)
      · subst e1
        simp [replaceSep, e2] at h
        exact absurd h.1.symm hc2
      · subst e2
        simp [replaceSep, e1] at h
        exact absurd h.1 hc1
      · simp [replaceSep, e1, e2] at h
        rw [h.1, ih r2 hr1 hr2 h.2]

theorem flattenFields_base
    (recur : RegState → String → RegState × Except String (List FlatField))
    (st : RegState) :
    ∀ l : List (String × String),
      flattenFields recur st (l.map (fun p => (p.1, Desc.base p.2)))
        = (st, .ok (l.map (fun p => ⟨p.1, p.2⟩))) := by
  intro l
  induction l with
  | nil => rfl
  | cons a l ih => cases a; simp [flattenFields, ih]

theorem mem_addKeys (c : String) : ∀ (ks acc : List String),
    c ∈ addKeys acc ks ↔ c ∈ acc ∨ c ∈ ks := by
  intro ks
  induction ks with
  | nil => intro acc; simp [addKeys]
  | cons k ks ih =>
    intro acc
    have step : addKeys acc (k :: ks) = addKeys (if k ∈ acc then acc else acc ++ [k]) ks := rfl
    rw [step, ih]
    by_cases hk : k ∈ acc
    · simp only [if_pos hk, List.mem_cons]
      constructor
      · rintro (h | h)
        · exact Or.inl h
        · exact Or.inr (Or.inr h)
      · rintro (h | h | h)
        · exact Or.inl h
        · exact Or.inl (h ▸ hk)
        · exact Or.inr h
    · simp only [if_neg hk, List.mem_append, List.mem_singleton, List.mem_cons]
      tauto

theorem mem_unionKeys (c : String) : ∀ (rs : List (List (String × Value))),
    c ∈ unionKeys rs ↔ ∃ r ∈ rs, c ∈ r.map Prod.fst := by
  have aux : ∀ (rs : List (List (String × Value))) (acc : List String),
      c ∈ rs.foldl (fun a r => addKeys a (r.map Prod.fst)) acc ↔
        c ∈ acc ∨ ∃ r ∈ rs, c ∈ r.map Prod.fst := by
    intro rs
    induction rs with
    | nil => intro acc; simp
    | cons r rs ih =>
      intro acc
      rw [List.foldl_cons, ih, mem_addKeys]
      simp only [List.mem_cons]
      constructor
      · rintro ((h | h) | ⟨r1, hr1, hc⟩)
        · exact Or.inl h
        · exact Or.inr ⟨r, Or.inl rfl, h⟩
        · exact Or.inr ⟨r1, Or.inr hr1, hc⟩
      · rintro (h | ⟨r1, (hr1 | hr1), hc⟩)
        · exact Or.inl (Or.inl h)
        · exact Or.inl (Or.inr (hr1 ▸ hc))
        · exact Or.inr ⟨r1, hr1, hc⟩
  intro rs
  rw [unionKeys, aux rs []]
  simp

theorem lookupVal_eq_none (c : String) (r : List (String × Value)) :
    lookupVal c r = none ↔ c ∉ r.map Prod.fst := by
  induction r with
  | nil => simp [lookupVal]
  | cons p rest ih =>
    cases p with
    | mk k v =>
      by_cases hk : k = c
      · subst hk
        simp [lookupVal]
      · simp [lookupVal, hk, Ne.symm hk, ih]

theorem filterEntries_keys (es : List (String × Value)) :
    (filterEntries es).map Prod.fst = es.map Prod.fst := by
  induction es with
  | nil => rfl
  | cons p rest ih => cases p; simp [filterEntries, ih]

theorem dictSet_keys (k : String) (v : Value) : ∀ m : List (String × Value),
    (dictSet m k v).map Prod.fst =
      if k ∈ m.map Prod.fst then m.map Prod.fst else m.map Prod.fst ++ [k] := by
  intro m
  induction m with
  | nil => simp [dictSet]
  | cons p rest ih =>
    cases p with
    | mk k1 v1 =>
      by_cases hk : k1 = k
      · subst hk
        simp [dictSet]
      · simp only [dictSet, if_neg hk, List.map_cons, List.mem_cons, ih]
        by_cases hm : k ∈ rest.map Prod.fst
        · simp [hm, Ne.symm hk]
        · simp [hm, Ne.symm hk]

theorem lookupVal_dictSet (k : String) (v : Value) : ∀ m : List (String × Value),
    lookupVal k (dictSet m k v) = some v := by
  intro m
  induction m with
  | nil => simp [dictSet, lookupVal]
  | cons p rest ih =>
    cases p with
    | mk k1 v1 =>
      by_cases hk : k1 = k
      · subst hk
        simp [dictSet, lookupVal]
      · simp [dictSet, lookupVal, hk, ih]

theorem dictDelOpt_isSome (k : String) : ∀ m : List (String × Value),
    k ∈ m.map Prod.fst → ∃ r, dictDelOpt m k = some r := by
  intro m
  induction m with
  | nil => simp
  | cons p rest ih =>
    cases p with
    | mk k1 v1 =>
      intro hmem
      by_cases hk : k1 = k
      · exact ⟨rest, by simp [dictDelOpt, hk]⟩
      · have : k ∈ rest.map Prod.fst := by
          simpa [Ne.symm hk] using hmem
        obtain ⟨r, hr⟩ := ih this
        exact ⟨(k1, v1) :: r, by simp [dictDelOpt, hk, hr]⟩

theorem lookupVal_dictDelOpt (k k2 : String) (hne : k ≠ k2) :
    ∀ (m r : List (String × Value)), dictDelOpt m k2 = some r →
      lookupVal k r = lookupVal k m := by
  intro m
  induction m with
  | nil => intro r h; simp [dictDelOpt] at h
  | cons p rest ih =>
    cases p with
    | mk k1 v1 =>
      intro r h
      by_cases hk : k1 = k2
      · subst hk
        simp [dictDelOpt] at h
        subst h
        simp [lookupVal, Ne.symm hne]
      · simp only [dictDelOpt, if_neg hk] at h
        cases hr : dictDelOpt rest k2 with
        | none => rw [hr] at h; simp at h
        | some r1 =>
          rw [hr] at h
          simp only [Option.map_some', Option.some.injEq] at h
          subst h
          by_cases hk1 : k1 = k
          · subst hk1; simp [lookupVal]
          · simp [lookupVal, hk1, ih r1 hr]

theorem dictDelOpt_not_mem (k : String) : ∀ (m r : List (String × Value)),
    (m.map Prod.fst).Nodup → dictDelOpt m k = some r → k ∉ r.map Prod.fst := by
  intro m
  induction m with
  | nil => intro r _ h; simp [dictDelOpt] at h
  | cons p rest ih =>
    cases p with
    | mk k1 v1 =>
      intro r hnd h
      simp only [List.map_cons, List.nodup_cons] at hnd
      by_cases hk : k1 = k
      · subst hk
        simp [dictDelOpt] at h
        subst h
        exact hnd.1
      · simp only [dictDelOpt, if_neg hk] at h
        cases hr : dictDelOpt rest k with
        | none => rw [hr] at h; simp at h
        | some r1 =>
          rw [hr] at h
          simp only [Option.map_some', Option.some.injEq] at h
          subst h
          intro hmem
          rcases (by simpa using hmem : k = k1 ∨ ∃ x, (k, x) ∈ r1) with h1 | h1
          · exact hk h1.symm
          · rcases h1 with ⟨x, hx⟩
            exact ih r1 hnd.2 hr (List.mem_map.mpr ⟨(k, x), hx, rfl⟩)

/-! ## Claim theorems -/

/-- Claim C1: contrary to the claim that a fixed-length sequence of length
`n` with a primitive element type yields exactly `n` `FlatField`s named
`f__0 .. f__{n-1}`, the code evaluates `length = field_node[1][0].value` —
the `Nodetype.SEQUENCE` enum value 4, not the declared length.  At the
failing input (declared length 3, element type `float64`) it emits the four
fields `p__0 .. p__3`; and a fixed-length array descriptor
(`Nodetype.ARRAY`), which matches none of the three branch tests, emits
nothing at all. -/
theorem flatten_schema_sequence_count_at_input :
    flattenSchema 1 regP "test_msgs/msg/P"
        = (regP, .ok [⟨"p__0", "float64"⟩, ⟨"p__1", "float64"⟩,
                      ⟨"p__2", "float64"⟩, ⟨"p__3", "float64"⟩])
      ∧ flattenSchema 1 regQ "test_msgs/msg/Q" = (regQ, .ok []) :=
  ⟨rfl, rfl⟩

/-- Claim C2: contrary to the claim that no `FlatField` is emitted for an
unbounded-length sequence, the code never reads the declared length: an
unbounded sequence (`length` recorded as 0) of primitive element type emits
the four fields `d__0 .. d__3` exactly like any other `SEQUENCE` node.  The
other half of the claim does hold: a sequence whose element type is a named
type emits nothing (`is_param_prim` is false). -/
theorem flatten_schema_unbounded_sequence_at_input :
    flattenSchema 1 regD "test_msgs/msg/D"
        = (regD, .ok [⟨"d__0", "int32"⟩, ⟨"d__1", "int32"⟩,
                      ⟨"d__2", "int32"⟩, ⟨"d__3", "int32"⟩])
      ∧ flattenSchema 1 regE "test_msgs/msg/E" = (regE, .ok []) :=
  ⟨rfl, rfl⟩

/-- Claim C3: `flatten_value` on the decoded message
`{a: {x: 1, y: 2}, b: [10, 20, 30]}` returns
`{"a__x": 1, "a__y": 2, "b__0": 10, "b__1": 20, "b__2": 30}`, and for every
nested mapping field the child flat keys are merged under
`parent + JOIN + childkey`. -/
theorem flatten_value_example_and_merge_rule :
    flatten_value [("a", .vdict [("x", .vint 1), ("y", .vint 2)]),
                   ("b", .vlist [.vint 10, .vint 20, .vint 30])]
        = [("a__x", .vint 1), ("a__y", .vint 2),
           ("b__0", .vint 10), ("b__1", .vint 20), ("b__2", .vint 30)]
      ∧ ∀ (k : String) (es rest : List (String × Value)),
          normalizeEntries ((k, Value.vdict es) :: rest)
            = (normalizeEntries es).map (fun p => (k ++ SEPARATOR ++ p.1, p.2))
                ++ normalizeEntries rest := by
  constructor
  · simp [flatten_value, filterEntries, filterMulti, indexEntries,
      normalizeEntries, SEPARATOR, isPrimVal]
    exact ⟨rfl, rfl, rfl⟩
  · intro k es rest
    simp [normalizeEntries]

/-- Claim C4: the value flattener is total — every value that is neither a
recognized primitive scalar, nor a mapping, nor a rank-1 sequence is
silently replaced by the null marker; rank-1 sequences are unrolled into
mappings from stringified index to (filtered) element; and a field `m`
holding a 2-dimensional array flattens to `{"m": null}`, not an elementwise
expansion. -/
theorem flatten_value_total_null_policy :
    (∀ v : Value, isDictVal v = false → isSeqLike v = false →
        isPrimVal v = false → filterMulti v = .vnull)
      ∧ (∀ es : List Value, filterMulti (.vlist es)
          = .vdict (es.enum.map (fun p => (toString p.1, filterMulti p.2))))
      ∧ flatten_value
          [("m", .ndarray 2 [.vlist [.vint 1, .vint 2], .vlist [.vint 3, .vint 4]])]
          = [("m", .vnull)] := by
  refine ⟨?_, ?_, ?_⟩
  · intro v hd hs hp
    cases v <;> simp_all [filterMulti, isDictVal, isSeqLike, isPrimVal]
  · intro es
    simp [filterMulti, List.enum, indexEntries_eq_enumFrom]
  · simp [flatten_value, filterEntries, filterMulti, normalizeEntries]

/-- Claim C4 witness: the policy applied to a binary blob (and the rank-1
rule at a concrete list). -/
theorem flatten_value_total_null_policy_witness :
    filterMulti (.vbytes [0, 1]) = .vnull :=
  flatten_value_total_null_policy.1 (.vbytes [0, 1]) rfl rfl rfl

/-- Claim C5: a type definition all of whose fields are primitive flattens
to exactly one `FlatField` per declared field, same names, same order (and
the registry state is untouched); for every nested-object field `f` of named
type `U` — at any position of any field list (the field loop processes every
suffix), under any recursive flattening of `U` into children — the field
contributes exactly `U`'s flattened children renamed
`f + JOIN + child.name`, each keeping the child's declared type; the same
rule read at the `flatten_schema` level for a resolvable type whose field
list starts with such a field; and on the spec's nested example
`T{ a: U{ x: int32, y: int32 } }` the flattener returns
`[FlatField("a__x", int32), FlatField("a__y", int32)]`. -/
theorem flatten_schema_base_and_nested :
    (∀ (fuel : Nat) (st : RegState) (t : String)
        (consts : List (String × String)) (l : List (String × String)),
      regGet st t = some (consts, l.map (fun p => (p.1, Desc.base p.2))) →
      flattenSchema (fuel + 1) st t = (st, .ok (l.map (fun p => ⟨p.1, p.2⟩))))
      ∧ (∀ (recur : RegState → String → RegState × Except String (List FlatField))
            (st st1 st2 : RegState) (fname u : String) (rest : List FieldNode)
            (children tail : List FlatField),
          recur st u = (st1, .ok children) →
          flattenFields recur st1 rest = (st2, .ok tail) →
          flattenFields recur st ((fname, Desc.name u) :: rest)
            = (st2, .ok (children.map
                (fun c => ⟨fname ++ SEPARATOR ++ c.name, c.ros_type⟩) ++ tail)))
      ∧ (∀ (fuel : Nat) (st st1 st2 : RegState) (t : String)
            (consts : List (String × String)) (fname u : String)
            (rest : List FieldNode) (children tail : List FlatField),
          regGet st t = some (consts, (fname, Desc.name u) :: rest) →
          flattenSchema fuel st u = (st1, .ok children) →
          flattenFields (flattenSchema fuel) st1 rest = (st2, .ok tail) →
          flattenSchema (fuel + 1) st t
            = (st2, .ok (children.map
                (fun c => ⟨fname ++ SEPARATOR ++ c.name, c.ros_type⟩) ++ tail)))
      ∧ flattenSchema 2 regTU "test_msgs/msg/T"
          = (regTU, .ok [⟨"a__x", "int32"⟩, ⟨"a__y", "int32"⟩]) := by
  refine ⟨?_, ?_, ?_, rfl⟩
  · intro fuel st t consts l h
    simp [flattenSchema, h, flattenFields_base]
  · intro recur st st1 st2 fname u rest children tail h1 h2
    simp [flattenFields, h1, h2]
  · intro fuel st st1 st2 t consts fname u rest children tail h h1 h2
    simp [flattenSchema, h, flattenFields, h1, h2]

/-- Claim C5 witness: a single-field primitive type at fuel 1, and the
NAME-branch renaming rule instantiated on the `regTU` registry. -/
theorem flatten_schema_base_and_nested_witness :
    flattenSchema 1 ⟨[("a/B", ([], [("x", Desc.base "bool")]))], []⟩ "a/B"
        = (⟨[("a/B", ([], [("x", Desc.base "bool")]))], []⟩, .ok [⟨"x", "bool"⟩])
      ∧ flattenFields (flattenSchema 1) regTU [("a", Desc.name "test_msgs/msg/U")]
          = (regTU, .ok [⟨"a__x", "int32"⟩, ⟨"a__y", "int32"⟩]) :=
  ⟨flatten_schema_base_and_nested.1 0
      ⟨[("a/B", ([], [("x", Desc.base "bool")]))], []⟩ "a/B" [] [("x", "bool")] rfl,
   flatten_schema_base_and_nested.2.1 (flattenSchema 1) regTU regTU regTU
      "a" "test_msgs/msg/U" [] [⟨"x", "int32"⟩, ⟨"y", "int32"⟩] [] rfl rfl⟩

/-- Claim C6: `format_name` maps `"/robot/imu/data"` to
`"robot__imu__data"`; a name with no leading separator is untouched apart
from separator replacement; and the normalization is injective on
well-formed channel names (leading separator, no join-token character). -/
theorem format_name_normalization :
    format_name "/robot/imu/data".toList = "robot__imu__data".toList
      ∧ (∀ s : List Char, s.head? ≠ some '/' → format_name s = replaceSep s)
      ∧ (∀ s1 s2 : List Char, wellFormedName s1 → wellFormedName s2 →
          format_name s1 = format_name s2 → s1 = s2) := by
  refine ⟨rfl, ?_, ?_⟩
  · intro s hs
    cases s with
    | nil => rfl
    | cons c rest =>
      have hc : c ≠ '/' := fun hx => hs (by simp [hx])
      simp [format_name, stripSlash, hc]
  · intro s1 s2 w1 w2 h
    obtain ⟨h1, n1⟩ := w1
    obtain ⟨h2, n2⟩ := w2
    cases s1 with
    | nil => simp at h1
    | cons c1 r1 =>
      cases s2 with
      | nil => simp at h2
      | cons c2 r2 =>
        have e1 : c1 = '/' := by simpa using h1
        have e2 : c2 = '/' := by simpa using h2
        subst e1; subst e2
        have hr1 : '_' ∉ r1 := fun hx => n1 (List.mem_cons_of_mem _ hx)
        have hr2 : '_' ∉ r2 := fun hx => n2 (List.mem_cons_of_mem _ hx)
        have h0 : replaceSep r1 = replaceSep r2 := by
          simpa [format_name, stripSlash] using h
        exact congrArg _ (replaceSep_inj r1 r2 hr1 hr2 h0)

/-- Claim C6 witness: the untouched-name rule and injectivity instantiated
at concrete channel names. -/
theorem format_name_normalization_witness :
    format_name "x/y".toList = replaceSep "x/y".toList
      ∧ "/a/b".toList = "/a/b".toList :=
  ⟨format_name_normalization.2.1 "x/y".toList (by decide),
   format_name_normalization.2.2 "/a/b".toList "/a/b".toList
     (by decide) (by decide) rfl⟩

/-- Claim C7: a type name found in neither `self.__types` nor the built-in
`FIELDDEFS` catalog makes `flatten_schema` fail with the
`Unregistered ROS type` error naming the unresolvable type, and the
returned state is exactly the input registry (the lookup is a read). -/
theorem unknown_type_lookup_error :
    ∀ (fuel : Nat) (st : RegState) (t : String),
      lookupTD st.types t = none → lookupTD st.fielddefs t = none →
      flattenSchema (fuel + 1) st t
        = (st, .error ("Unregistered ROS type: " ++ t)) := by
  intro fuel st t h1 h2
  simp [flattenSchema, regGet, h1, h2, Option.orElse]

/-- Claim C7 witness: an empty registry rejects `foo_msgs/msg/Bar`. -/
theorem unknown_type_lookup_error_witness :
    flattenSchema 1 ⟨[], []⟩ "foo_msgs/msg/Bar"
      = (⟨[], []⟩, .error ("Unregistered ROS type: " ++ "foo_msgs/msg/Bar")) :=
  unknown_type_lookup_error 0 ⟨[], []⟩ "foo_msgs/msg/Bar" rfl rfl

/-- Claim C8 counterexample: the decoded message object passed to the value
flattener is *not* left unchanged — on `{b: [10]}` the dict branch's
in-place writes (`data[k] = ...`, rosbag.py line 116) leave the passed
mapping holding `{b: {"0": 10}}`, which differs from the original. -/
theorem filter_input_mutation_counterexample :
    filterMultiPost [("b", .vlist [.vint 10])] ≠ [("b", .vlist [.vint 10])] := by
  simp [filterMultiPost, filterMulti, indexEntries]

/-- Claim C8 (amended): the value flattener reads no external state and is
deterministic in its input value; flattening the same (physically mutated)
message twice yields the same output because the flattener is idempotent;
but a mapping passed to it is updated in place to the filtered content — the
post-call content of the passed dict coincides with the returned value
rather than with the original. -/
theorem filter_idempotent_and_post_state :
    (∀ v : Value, filterMulti (filterMulti v) = filterMulti v)
      ∧ ∀ es : List (String × Value),
          filterMulti (.vdict es) = .vdict (filterMultiPost es) := by
  refine ⟨filterMulti_idem, ?_⟩
  intro es
  simp [filterMulti, filterMultiPost, filterEntries_eq_map]

/-- Claim C9: `as_table()` on zero messages is the empty table with no rows;
the column set of the materialized table is exactly the union of the keys of
the flattened records (first-seen order); each row is its record looked up
column-wise, a lookup that is `none` exactly for the keys the record lacks;
and on two records where the second lacks `b__2`, the `b__2` column holds a
missing value for that row only. -/
theorem as_table_union_of_keys :
    asTable [] = ⟨[], []⟩
      ∧ (∀ (msgs : List (List (String × Value))) (c : String),
          c ∈ (asTable msgs).cols ↔
            ∃ m ∈ msgs, c ∈ (normalizeEntries m).map Prod.fst)
      ∧ (∀ (msgs : List (List (String × Value))) (i : Nat),
          (asTable msgs).rows[i]? = (msgs[i]?).map
            (fun m => (asTable msgs).cols.map (fun c => lookupVal c (normalizeEntries m))))
      ∧ (∀ (c : String) (r : List (String × Value)),
          lookupVal c r = none ↔ c ∉ r.map Prod.fst)
      ∧ (asTable exMsgs).cols = ["b__0", "b__1", "b__2"]
      ∧ (asTable exMsgs).rows
          = [[some (.vint 10), some (.vint 20), some (.vint 30)],
             [some (.vint 11), some (.vint 21), none]] := by
  refine ⟨rfl, ?_, ?_, lookupVal_eq_none, ?_, ?_⟩
  · intro msgs c
    rw [show (asTable msgs).cols = unionKeys (msgs.map normalizeEntries) from rfl,
      mem_unionKeys]
    constructor
    · rintro ⟨r, hr, hc⟩
      obtain ⟨m, hm, rfl⟩ := List.mem_map.mp hr
      exact ⟨m, hm, hc⟩
    · rintro ⟨m, hm, hc⟩
      exact ⟨normalizeEntries m, List.mem_map.mpr ⟨m, hm, rfl⟩, hc⟩
  · intro msgs i
    show (List.map _ (msgs.map normalizeEntries))[i]? = _
    rw [List.getElem?_map, List.getElem?_map]
    cases msgs[i]? <;> rfl
  · simp [asTable, exMsgs, normalizeEntries, unionKeys, addKeys, SEPARATOR]
  · simp [asTable, exMsgs, normalizeEntries, unionKeys, addKeys, lookupVal, SEPARATOR]

/-- Claim C10: every yielded record carries `ts = int(ts * 1e-6)` (binary64
arithmetic, truncated) under the key `'ts'`, overwriting any identically
named top-level field of the decoded message, and the decoder's
`'__msgtype__'` metadata key is absent from the record. -/
theorem read_message_ts_and_msgtype :
    ∀ (entries : List (String × Value)) (ts : Nat),
      "__msgtype__" ∈ entries.map Prod.fst →
      (entries.map Prod.fst).Nodup →
      ∃ r, readRecord entries ts = some r
        ∧ lookupVal "ts" r = some (.vint (tsVal ts))
        ∧ "__msgtype__" ∉ r.map Prod.fst := by
  intro entries ts hmem hnd
  have k0 : (filterEntries entries).map Prod.fst = entries.map Prod.fst :=
    filterEntries_keys entries
  have k1 := dictSet_keys "ts" (.vint (tsVal ts)) (filterEntries entries)
  have hmem1 : "__msgtype__" ∈
      (dictSet (filterEntries entries) "ts" (.vint (tsVal ts))).map Prod.fst := by
    rw [k1]
    split <;> simp [k0, hmem]
  have hnd1 : ((dictSet (filterEntries entries) "ts" (.vint (tsVal ts))).map Prod.fst).Nodup := by
    rw [k1, k0]
    split
    · exact hnd
    · rename_i hnotin
      rw [List.nodup_append]
      refine ⟨hnd, List.nodup_singleton _, ?_⟩
      intro a ha hb
      rw [List.mem_singleton] at hb
      subst hb
      exact hnotin ha
  obtain ⟨r, hr⟩ := dictDelOpt_isSome "__msgtype__" _ hmem1
  refine ⟨r, hr, ?_, dictDelOpt_not_mem "__msgtype__" _ r hnd1 hr⟩
  rw [lookupVal_dictDelOpt "ts" "__msgtype__" (by decide) _ r hr]
  exact lookupVal_dictSet "ts" (.vint (tsVal ts)) (filterEntries entries)

/-- Claim C10 witness: a concrete decoded message (which even carries its
own `ts` field) at timestamp 5000000 ns. -/
theorem read_message_ts_and_msgtype_witness :
    ∃ r, readRecord
        [("__msgtype__", .vstr "sensor_msgs/msg/Imu"),
         ("ts", .vint 3), ("q", .vlist [.vint 1])] 5000000 = some r
      ∧ lookupVal "ts" r = some (.vint (tsVal 5000000))
      ∧ "__msgtype__" ∉ r.map Prod.fst :=
  read_message_ts_and_msgtype
    [("__msgtype__", .vstr "sensor_msgs/msg/Imu"),
     ("ts", .vint 3), ("q", .vlist [.vint 1])] 5000000
    (by decide) (by decide)

end McapEtl
